import Mathlib

/-!
Verification of the CalendarView calendar engine: date grid building,
event indexing, lane layout, navigation and form state machines, and the
Storybook fixture generator.

The repository ships the engine's Storybook stories
(`src/components/Calendar/CalendarView.stories.tsx`); the engine modules
themselves (`CalendarView.tsx`, `useCalendar`, `useEventManager`, the view
components) are not part of the sources here, so those components are
modelled from the specification, as marked on each definition.  The fixture
generator `generateManyEvents` and the palette/category tables are embedded
directly from the stories file.
-/

namespace CalendarView

/-! ## Calendar dates (proleptic Gregorian, naive local time) -/

/-- A calendar date: year (≥ 1), month (1–12), day (1–31). -/
structure Date where
  year : Nat
  month : Nat
  day : Nat
deriving DecidableEq

/-- Gregorian leap-year predicate. -/
def isLeap (y : Nat) : Bool :=
  (y % 4 == 0 && y % 100 != 0) || y % 400 == 0

/-- Length of month `m` (1–12) in a year whose leap status is `leap`. -/
def monthLength (leap : Bool) (m : Nat) : Nat :=
  match m with
  | 1 => 31
  | 2 => if leap then 29 else 28
  | 3 => 31
  | 4 => 30
  | 5 => 31
  | 6 => 30
  | 7 => 31
  | 8 => 31
  | 9 => 30
  | 10 => 31
  | 11 => 30
  | 12 => 31
  | _ => 0

/-- Number of days in month `m` of year `y`. -/
def daysInMonth (y m : Nat) : Nat := monthLength (isLeap y) m

/-- Days in the months of the year strictly before month `m`. -/
def daysBeforeMonth (leap : Bool) (m : Nat) : Nat :=
  match m with
  | 1 => 0
  | 2 => 31
  | 3 => if leap then 60 else 59
  | 4 => if leap then 91 else 90
  | 5 => if leap then 121 else 120
  | 6 => if leap then 152 else 151
  | 7 => if leap then 182 else 181
  | 8 => if leap then 213 else 212
  | 9 => if leap then 244 else 243
  | 10 => if leap then 274 else 273
  | 11 => if leap then 305 else 304
  | 12 => if leap then 335 else 334
  | _ => 0

/-- Number of leap years in `1..y-1`. -/
def leapsBefore (y : Nat) : Nat :=
  ((y - 1) / 4 + (y - 1) / 400) - (y - 1) / 100

/-- Days in the years strictly before year `y` (year 1 onward). -/
def daysBeforeYear (y : Nat) : Nat :=
  365 * (y - 1) + leapsBefore y

/-- Serial day number: 0 = January 1 of year 1, which is a Monday in the
proleptic Gregorian calendar. -/
def toDayNumber (d : Date) : Nat :=
  daysBeforeYear d.year + daysBeforeMonth (isLeap d.year) d.month + (d.day - 1)

/-- Weekday index: 0 = Monday … 6 = Sunday. -/
def weekdayIndex (d : Date) : Nat := toDayNumber d % 7

/-- A structurally valid Gregorian date. -/
def ValidDate (d : Date) : Prop :=
  1 ≤ d.year ∧ 1 ≤ d.month ∧ d.month ≤ 12 ∧ 1 ≤ d.day ∧ d.day ≤ daysInMonth d.year d.month

instance (d : Date) : Decidable (ValidDate d) := by
  unfold ValidDate; exact inferInstance

/-- Civil successor of a date. -/
def nextDay (d : Date) : Date :=
  if d.day < daysInMonth d.year d.month then ⟨d.year, d.month, d.day + 1⟩
  else if d.month < 12 then ⟨d.year, d.month + 1, 1⟩
  else ⟨d.year + 1, 1, 1⟩

/-- Civil predecessor of a date. -/
def prevDay (d : Date) : Date :=
  if 1 < d.day then ⟨d.year, d.month, d.day - 1⟩
  else if 1 < d.month then ⟨d.year, d.month - 1, daysInMonth d.year (d.month - 1)⟩
  else ⟨d.year - 1, 12, 31⟩

/-! ## DateGridBuilder -/

/-- One cell of the month grid. -/
structure GridCell where
  date : Date
  isCurrentPeriod : Bool
  isToday : Bool
deriving DecidableEq

/-- Modelled from the spec: `buildMonthGrid` of the DateGridBuilder component
(the engine module is not among the sources).  Computes the Monday-aligned
start of the week containing the 1st of the focused month, then emits exactly
6 weeks × 7 days = 42 cells, marking cells outside the focused month with
`isCurrentPeriod = false`.  The ambient current date is passed explicitly as
`today`. -/
def buildMonthGrid (today ref : Date) : List GridCell :=
  let first : Date := ⟨ref.year, ref.month, 1⟩
  let offset := weekdayIndex first
  let start := prevDay^[offset] first
  (List.range 42).map fun i =>
    let d := nextDay^[i] start
    { date := d
      isCurrentPeriod := d.year == ref.year && d.month == ref.month
      isToday := d == today }

/-- One hourly slot of the week grid. -/
structure HourSlot where
  date : Date
  hour : Nat
deriving DecidableEq

/-- Modelled from the spec: `buildWeekGrid` of the DateGridBuilder component
(the engine module is not among the sources).  The Monday-aligned week
containing `referenceDate`, as 7 days × 24 hourly slots labelled 0–23. -/
def buildWeekGrid (ref : Date) : List HourSlot :=
  let start := prevDay^[weekdayIndex ref] ref
  (List.range 7).flatMap fun i =>
    (List.range 24).map fun h => { date := nextDay^[i] start, hour := h }

/-! ## Events and the EventIndexer

Instants are naive local time measured in minutes; a calendar day `D` is the
half-open minute interval `[D * 1440, (D+1) * 1440)`. -/

/-- The fixed 6-colour palette, as listed in the stories file. -/
def palette : List String :=
  ["#3b82f6", "#10b981", "#f59e0b", "#8b5cf6", "#ef4444", "#ec4899"]

/-- A calendar event (`CalendarView.types`): instants in minutes. -/
structure CalendarEvent where
  id : String
  title : String
  description : Option String
  startDate : Nat
  endDate : Nat
  color : String
  category : Option String
deriving DecidableEq

/-- First minute of day `D`. -/
def startOfDay (D : Nat) : Nat := D * 1440

/-- First minute after day `D`. -/
def endOfDay (D : Nat) : Nat := (D + 1) * 1440

/-- Modelled from the spec: the EventIndexer's half-open interval test — an
event occupies day `D` iff `startDate < endOfDay D` and
`endDate > startOfDay D`. -/
def occupiesDay (e : CalendarEvent) (D : Nat) : Bool :=
  decide (e.startDate < endOfDay D) && decide (e.endDate > startOfDay D)

/-- Ordering used within a day: ascending start date, ties broken by id. -/
def dayOrder (a b : CalendarEvent) : Bool :=
  decide (a.startDate < b.startDate) ||
    (a.startDate == b.startDate && decide (a.id ≤ b.id))

/-- Modelled from the spec: `indexByDay` of the EventIndexer component (the
engine module is not among the sources) — the events whose date range
intersects day `D`, ordered by start date then id. -/
def indexByDay (events : List CalendarEvent) (D : Nat) : List CalendarEvent :=
  (events.filter (fun e => occupiesDay e D)).mergeSort dayOrder

/-- Month-view preview policy constant: at most 3 events shown per day. -/
def monthPreviewCap : Nat := 3

/-- Bounded month-view preview of one day. -/
structure DayPreview where
  preview : List CalendarEvent
  moreCount : Nat
deriving DecidableEq

/-- Modelled from the spec: the EventIndexer's bounded month-view preview —
up to `monthPreviewCap` events plus the overflow count. -/
def previewForDay (events : List CalendarEvent) (D : Nat) : DayPreview :=
  let es := indexByDay events D
  { preview := es.take monthPreviewCap
    moreCount := es.length - monthPreviewCap }

/-! ## LaneLayoutEngine (week view) -/

/-- An event decorated with its lane position for one day. -/
structure PositionedEvent where
  event : CalendarEvent
  laneIndex : Nat
  laneCount : Nat
deriving DecidableEq

/-- Modelled from the spec: zero- or negative-duration events are normalized
to a minimum 1-unit duration before layout. -/
def normalizeEvent (e : CalendarEvent) : CalendarEvent :=
  if e.endDate ≤ e.startDate then { e with endDate := e.startDate + 1 } else e

/-- Layout ordering: by start time, ties by end time ascending, then id. -/
def laneOrder (a b : CalendarEvent) : Bool :=
  decide (a.startDate < b.startDate) ||
    (a.startDate == b.startDate &&
      (decide (a.endDate < b.endDate) ||
        (a.endDate == b.endDate && decide (a.id ≤ b.id))))

/-- Lowest-numbered lane whose last end time is at most `s` (not active). -/
def pickLane : List Nat → Nat → Option Nat
  | [], _ => none
  | t :: rest, s => if t ≤ s then some 0 else (pickLane rest s).map (· + 1)

/-- Modelled from the spec: the greedy lane assignment — events arrive sorted
by start; each takes the lowest lane not occupied by a still-active event,
or opens a new lane.  `lanes` maps each lane to its current end time; the
result pairs every event with its lane and returns the final lane table. -/
def assignLanes : List CalendarEvent → List Nat →
    List (CalendarEvent × Nat) × List Nat
  | [], lanes => ([], lanes)
  | e :: rest, lanes =>
    match pickLane lanes e.startDate with
    | some j =>
      let r := assignLanes rest (lanes.set j e.endDate)
      ((e, j) :: r.1, r.2)
    | none =>
      let r := assignLanes rest (lanes ++ [e.endDate])
      ((e, lanes.length) :: r.1, r.2)

/-- Modelled from the spec: the LaneLayoutEngine — normalize, sort, assign
lanes greedily, and broadcast the final lane count to every event. -/
def layoutDay (events : List CalendarEvent) : List PositionedEvent :=
  let sorted := (events.map normalizeEvent).mergeSort laneOrder
  let r := assignLanes sorted []
  r.1.map fun p => { event := p.1, laneIndex := p.2, laneCount := r.2.length }

/-- The lane count the engine broadcasts for a day's events. -/
def laneCountOf (events : List CalendarEvent) : Nat :=
  (assignLanes ((events.map normalizeEvent).mergeSort laneOrder) []).2.length

/-- Two (half-open) intervals overlap. -/
def overlaps (a b : CalendarEvent) : Prop :=
  a.startDate < b.endDate ∧ b.startDate < a.endDate

/-- Number of events active at instant `t` (half-open membership). -/
def activeAt (events : List CalendarEvent) (t : Nat) : Nat :=
  events.countP fun e => decide (e.startDate ≤ t) && decide (t < e.endDate)

/-- The invariant the greedy lane assignment maintains: every placed pair's
lane is in range, the lane table bounds the ends of its events, each lane's
entry is the end of one of its events, events are positive-length, and two
events in the same lane are disjoint in order. -/
def LaneInv (placed : List (CalendarEvent × Nat)) (lanes : List Nat) : Prop :=
  (∀ p ∈ placed, p.2 < lanes.length) ∧
  (∀ p ∈ placed, p.1.endDate ≤ lanes.getD p.2 0) ∧
  (∀ j, j < lanes.length → ∃ p ∈ placed, p.2 = j ∧ lanes.getD j 0 = p.1.endDate) ∧
  (∀ p ∈ placed, p.1.startDate < p.1.endDate) ∧
  List.Pairwise (fun p q => p.2 = q.2 → p.1.endDate ≤ q.1.startDate) placed

/-! ## NavigationState -/

/-- The two view modes. -/
inductive ViewMode where
  | month
  | week
deriving DecidableEq

/-- Navigation state: the focused reference date and the view mode. -/
structure NavigationState where
  referenceDate : Date
  viewMode : ViewMode
deriving DecidableEq

/-- Add one month, clamping the day to the target month's length. -/
def addMonth (d : Date) : Date :=
  if d.month < 12 then
    ⟨d.year, d.month + 1, min d.day (daysInMonth d.year (d.month + 1))⟩
  else ⟨d.year + 1, 1, min d.day 31⟩

/-- Subtract one month, clamping the day to the target month's length. -/
def subMonth (d : Date) : Date :=
  if 1 < d.month then
    ⟨d.year, d.month - 1, min d.day (daysInMonth d.year (d.month - 1))⟩
  else ⟨d.year - 1, 12, min d.day 31⟩

/-- Modelled from the spec: the `next` transition — advance by 1 month or
1 week depending on the view mode. -/
def navNext (s : NavigationState) : NavigationState :=
  match s.viewMode with
  | .month => { s with referenceDate := addMonth s.referenceDate }
  | .week => { s with referenceDate := nextDay^[7] s.referenceDate }

/-- Modelled from the spec: the `previous` transition — the inverse step. -/
def navPrevious (s : NavigationState) : NavigationState :=
  match s.viewMode with
  | .month => { s with referenceDate := subMonth s.referenceDate }
  | .week => { s with referenceDate := prevDay^[7] s.referenceDate }

/-- Modelled from the spec: the `today` transition — reset the reference
date to the ambient current date `now`, view mode unchanged. -/
def navToday (now : Date) (s : NavigationState) : NavigationState :=
  { referenceDate := now, viewMode := s.viewMode }

/-- Modelled from the spec: the `setView` transition — change the view mode,
reference date unchanged. -/
def navSetView (m : ViewMode) (s : NavigationState) : NavigationState :=
  { s with viewMode := m }

/-! ## EventFormState and EventManager -/

/-- The modal form's draft: the editable CalendarEvent fields.  Unknown or
malformed dates are `none`, rejected by validation before the interval
check. -/
structure Draft where
  title : String
  description : Option String
  startDate : Option Nat
  endDate : Option Nat
  color : String
  category : Option String
deriving DecidableEq

/-- Form state: closed, or open in create mode, or open in edit mode holding
the original event. -/
inductive FormState where
  | closed
  | openCreate (draft : Draft) (errors : List (String × String))
  | openEdit (original : CalendarEvent) (draft : Draft)
      (errors : List (String × String))
deriving DecidableEq

/-- Whether the form is open. -/
def FormState.isOpen : FormState → Bool
  | .closed => false
  | .openCreate _ _ => true
  | .openEdit _ _ _ => true

/-- The draft of an open form. -/
def FormState.draft? : FormState → Option Draft
  | .closed => none
  | .openCreate d _ => some d
  | .openEdit _ d _ => some d

/-- The surfaced field errors. -/
def FormState.errors : FormState → List (String × String)
  | .closed => []
  | .openCreate _ es => es
  | .openEdit _ _ es => es

/-- A sparse update: only the changed CalendarEvent fields. -/
structure EventUpdates where
  title : Option String
  description : Option (Option String)
  startDate : Option Nat
  endDate : Option Nat
  color : Option String
  category : Option (Option String)
deriving DecidableEq

/-- The empty update `{}`: no field changed. -/
def EventUpdates.empty : EventUpdates :=
  { title := none, description := none, startDate := none, endDate := none
    color := none, category := none }

/-- The CRUD intents the engine emits to the host: `onEventAdd`,
`onEventUpdate`, `onEventDelete`. -/
inductive CrudIntent where
  | add (event : CalendarEvent)
  | update (id : String) (updates : EventUpdates)
  | delete (id : String)
deriving DecidableEq

/-- A string that trims to empty: every character is whitespace.  This is the
executable form of "title empty after trimming". -/
def titleBlank (s : String) : Bool :=
  s.data.all (fun c => c.isWhitespace)

/-- Modelled from the spec: validation — title required (non-empty after
trimming), malformed dates rejected before the interval check,
`startDate < endDate` strictly, color from the fixed palette. -/
def validate (d : Draft) : List (String × String) :=
  (if titleBlank d.title then [("title", "Title is required")] else []) ++
  (match d.startDate, d.endDate with
   | some s, some e =>
     if s < e then [] else [("endDate", "End time must be after start time")]
   | _, _ => [("date", "Invalid date")]) ++
  (if d.color ∈ palette then [] else [("color", "Invalid color")])

/-- Modelled from the spec: `openForCreate` — draft pre-filled with the
clicked instant as start and a default 1-hour end. -/
def openForCreate (t : Nat) : FormState :=
  .openCreate
    { title := "", description := none, startDate := some t
      endDate := some (t + 60), color := palette.headD "", category := none }
    []

/-- The draft holding a copy of an existing event's fields. -/
def draftOfEvent (e : CalendarEvent) : Draft :=
  { title := e.title, description := e.description
    startDate := some e.startDate, endDate := some e.endDate
    color := e.color, category := e.category }

/-- Modelled from the spec: `openForEdit` — draft copied from the existing
event. -/
def openForEdit (e : CalendarEvent) : FormState :=
  .openEdit e (draftOfEvent e) []

/-- The sparse update carrying exactly the draft fields that differ from the
original event. -/
def diffUpdates (orig : CalendarEvent) (d : Draft) : EventUpdates :=
  { title := if d.title = orig.title then none else some d.title
    description :=
      if d.description = orig.description then none else some d.description
    startDate :=
      match d.startDate with
      | some s => if s = orig.startDate then none else some s
      | none => none
    endDate :=
      match d.endDate with
      | some e => if e = orig.endDate then none else some e
      | none => none
    color := if d.color = orig.color then none else some d.color
    category := if d.category = orig.category then none else some d.category }

/-- Modelled from the spec: `submit()` — validate; on success transition to
Closed and emit exactly one intent (`add` in create mode with a fresh id
`newId`, `update` in edit mode); on failure stay Open with the field
errors surfaced and emit nothing. -/
def submit (newId : String) (s : FormState) : FormState × Option CrudIntent :=
  match s with
  | .closed => (.closed, none)
  | .openCreate d _ =>
    let errs := validate d
    if errs.isEmpty then
      match d.startDate, d.endDate with
      | some sd, some ed =>
        (.closed, some (.add
          { id := newId, title := d.title, description := d.description
            startDate := sd, endDate := ed, color := d.color
            category := d.category }))
      | _, _ => (.openCreate d errs, none)
    else (.openCreate d errs, none)
  | .openEdit orig d _ =>
    let errs := validate d
    if errs.isEmpty then (.closed, some (.update orig.id (diffUpdates orig d)))
    else (.openEdit orig d errs, none)

/-- Modelled from the spec: `deleteCurrent()` — only meaningful in edit mode;
emits `onEventDelete` with the original id and closes. -/
def deleteCurrent (s : FormState) : FormState × Option CrudIntent :=
  match s with
  | .openEdit orig _ _ => (.closed, some (.delete orig.id))
  | _ => (s, none)

/-- Modelled from the spec: `cancel()` — close, discarding the draft, no
callback. -/
def cancel (_s : FormState) : FormState × Option CrudIntent :=
  (.closed, none)

/-! ## Storybook fixtures (embedded from `CalendarView.stories.tsx`) -/

/-- The category table of `generateManyEvents` (stories file, line 8). -/
def storyCategories : List String :=
  ["Meeting", "Work", "Personal", "Design", "Development"]

/-- Minute-valued timestamp of the JS `new Date(y, monthIndex, d, h, mi)`
constructor (naive local time, month index 0-based, day overflow carried). -/
def jsDateMinutes (y moIdx d h mi : Nat) : Nat :=
  (toDayNumber ⟨y, moIdx + 1, 1⟩ + (d - 1)) * 1440 + h * 60 + mi

/-- Embedded from the stories file: `generateManyEvents` — 25 events,
`evt-1` … `evt-25`, event `i` on day `i` of October 2025 from hour
`9 + i % 8` to hour `10 + i % 8` minute 30, colours and categories taken
round-robin from the two tables. -/
def generateManyEvents : List CalendarEvent :=
  (List.range 25).map fun k =>
    let i := k + 1
    { id := "evt-" ++ toString i
      title := "Event " ++ toString i
      description := some ("Description for event " ++ toString i)
      startDate := jsDateMinutes 2025 9 i (9 + i % 8) 0
      endDate := jsDateMinutes 2025 9 i (10 + i % 8) 30
      color := (palette.getD (i % palette.length) "")
      category := some (storyCategories.getD (i % storyCategories.length) "") }

/-- Embedded from the stories file: the first `sampleEvents` entry. -/
def sampleEvent1 : CalendarEvent :=
  { id := "evt-1", title := "Team Standup"
    description := some "Daily sync with the team"
    startDate := jsDateMinutes 2025 9 29 9 0
    endDate := jsDateMinutes 2025 9 29 9 30
    color := "#3b82f6", category := some "Meeting" }

/-- A draft whose title trims to empty, used as a concrete fixture. -/
def blankDraft : Draft :=
  { title := " ", description := none, startDate := some 0, endDate := some 60
    color := "#3b82f6", category := none }

/-! ## Theorems

### Calendar arithmetic -/

theorem monthLength_pos (leap : Bool) (m : Nat) (h1 : 1 ≤ m) (h2 : m ≤ 12) :
    1 ≤ monthLength leap m := by
  cases leap <;> interval_cases m <;> decide

theorem daysBeforeMonth_succ (leap : Bool) (m : Nat) (h1 : 1 ≤ m) (h2 : m ≤ 11) :
    daysBeforeMonth leap (m + 1) = daysBeforeMonth leap m + monthLength leap m := by
  cases leap <;> interval_cases m <;> decide

theorem daysBeforeYear_succ (y : Nat) (h : 1 ≤ y) :
    daysBeforeYear (y + 1) = daysBeforeYear y + (if isLeap y then 366 else 365) := by
  simp only [daysBeforeYear, leapsBefore, isLeap, Nat.add_sub_cancel]
  split
  · rename_i hl
    simp only [Bool.or_eq_true, Bool.and_eq_true, beq_iff_eq, bne_iff_ne, ne_eq] at hl
    omega
  · rename_i hl
    simp only [Bool.or_eq_true, Bool.and_eq_true, beq_iff_eq, bne_iff_ne, ne_eq] at hl
    push_neg at hl
    omega

theorem valid_nextDay {d : Date} (h : ValidDate d) : ValidDate (nextDay d) := by
  obtain ⟨y, m, day⟩ := d
  obtain ⟨hy, hm1, hm12, hd1, hdm⟩ := h
  simp only [ValidDate, nextDay] at *
  split_ifs with h1 h2 <;> dsimp only
  · exact ⟨hy, hm1, hm12, by omega, by omega⟩
  · have hB : 1 ≤ daysInMonth y (m + 1) := monthLength_pos _ _ (by omega) (by omega)
    exact ⟨hy, by omega, by omega, by omega, by omega⟩
  · have hC : daysInMonth (y + 1) 1 = 31 := rfl
    exact ⟨by omega, by omega, by omega, by omega, by omega⟩

theorem toDayNumber_nextDay {d : Date} (h : ValidDate d) :
    toDayNumber (nextDay d) = toDayNumber d + 1 := by
  obtain ⟨y, m, day⟩ := d
  obtain ⟨hy, hm1, hm12, hd1, hdm⟩ := h
  simp only [ValidDate, nextDay] at *
  split_ifs with h1 h2
  · simp only [toDayNumber]
    omega
  · simp only [toDayNumber]
    rw [daysBeforeMonth_succ (isLeap y) m hm1 (by omega)]
    have hE : daysInMonth y m = monthLength (isLeap y) m := rfl
    omega
  · have hm : m = 12 := by omega
    subst hm
    have hday : day = 31 := by
      have hE : daysInMonth y 12 = 31 := by
        unfold daysInMonth
        rfl
      omega
    subst hday
    simp only [toDayNumber]
    rw [daysBeforeYear_succ y hy]
    cases hL : isLeap y <;> simp [daysBeforeMonth, hL]

theorem year_ge_two {y : Nat} (hy : 1 ≤ y)
    (hpos : 0 < toDayNumber ⟨y, 1, 1⟩) : 2 ≤ y := by
  rcases Nat.lt_or_ge y 2 with h | h
  · have : y = 1 := by omega
    subst this
    simp [toDayNumber, daysBeforeYear, leapsBefore, daysBeforeMonth] at hpos
  · exact h

theorem valid_prevDay {d : Date} (h : ValidDate d) (hpos : 0 < toDayNumber d) :
    ValidDate (prevDay d) := by
  obtain ⟨y, m, day⟩ := d
  obtain ⟨hy, hm1, hm12, hd1, hdm⟩ := h
  simp only [ValidDate, prevDay] at *
  split_ifs with h1 h2 <;> dsimp only
  · exact ⟨hy, hm1, hm12, by omega, by omega⟩
  · have hB : 1 ≤ daysInMonth y (m - 1) := monthLength_pos _ _ (by omega) (by omega)
    exact ⟨hy, by omega, by omega, by omega, le_refl _⟩
  · have hm : m = 1 := by omega
    have hday : day = 1 := by omega
    subst hm; subst hday
    have hy2 : 2 ≤ y := year_ge_two hy hpos
    have hC : daysInMonth (y - 1) 12 = 31 := rfl
    exact ⟨by omega, by omega, by omega, by omega, by omega⟩

theorem nextDay_prevDay {d : Date} (h : ValidDate d) (hpos : 0 < toDayNumber d) :
    nextDay (prevDay d) = d := by
  obtain ⟨y, m, day⟩ := d
  obtain ⟨hy, hm1, hm12, hd1, hdm⟩ := h
  simp only [ValidDate, prevDay] at *
  split_ifs with h1 h2
  · simp only [nextDay]
    have : day - 1 < daysInMonth y m := by omega
    simp only [if_pos this]
    congr 1
    omega
  · have hm : day = 1 := by omega
    subst hm
    simp only [nextDay]
    have hA : ¬ (daysInMonth y (m - 1) < daysInMonth y (m - 1)) := by omega
    rw [if_neg hA, if_pos (by omega : m - 1 < 12)]
    congr 1
    omega
  · have hm : m = 1 := by omega
    have hday : day = 1 := by omega
    subst hm; subst hday
    have hy2 : 2 ≤ y := year_ge_two hy hpos
    simp only [nextDay]
    have hC : daysInMonth (y - 1) 12 = 31 := rfl
    rw [if_neg (by omega), if_neg (by omega)]
    congr 1
    omega

theorem toDayNumber_prevDay {d : Date} (h : ValidDate d) (hpos : 0 < toDayNumber d) :
    toDayNumber (prevDay d) + 1 = toDayNumber d := by
  have h1 := toDayNumber_nextDay (valid_prevDay h hpos)
  rw [nextDay_prevDay h hpos] at h1
  omega

theorem prevDay_iterate {d : Date} (hv : ValidDate d) :
    ∀ n, n ≤ toDayNumber d →
      ValidDate (prevDay^[n] d) ∧ toDayNumber (prevDay^[n] d) + n = toDayNumber d ∧
        nextDay^[n] (prevDay^[n] d) = d := by
  intro n
  induction n with
  | zero => exact fun _ => ⟨hv, by simp, by simp⟩
  | succ k ih =>
    intro hn
    obtain ⟨hv', hnum', heq'⟩ := ih (by omega)
    have hpos : 0 < toDayNumber (prevDay^[k] d) := by omega
    rw [Function.iterate_succ_apply']
    refine ⟨valid_prevDay hv' hpos, ?_, ?_⟩
    · have := toDayNumber_prevDay hv' hpos
      omega
    · rw [Function.iterate_succ_apply, nextDay_prevDay hv' hpos, heq']

/-- C1: for every (valid) reference date, `buildMonthGrid` returns an ordered
sequence of exactly 42 cells (6 weeks of 7 days), the 1st of the focused month
is among them, and a cell has `isCurrentPeriod = true` iff its day lies in the
focused month. -/
theorem buildMonthGrid_spec (today ref : Date) (h : ValidDate ref) :
    (buildMonthGrid today ref).length = 42 ∧
    (∃ c ∈ buildMonthGrid today ref, c.date = (⟨ref.year, ref.month, 1⟩ : Date)) ∧
    (∀ c ∈ buildMonthGrid today ref,
      c.isCurrentPeriod = true ↔ (c.date.year = ref.year ∧ c.date.month = ref.month)) := by
  have hvfirst : ValidDate ⟨ref.year, ref.month, 1⟩ := by
    obtain ⟨hy, hm1, hm12, _, _⟩ := h
    exact ⟨hy, hm1, hm12, le_refl 1, monthLength_pos (isLeap ref.year) ref.month hm1 hm12⟩
  refine ⟨?_, ?_, ?_⟩
  · simp [buildMonthGrid]
  · have hoff_le : weekdayIndex ⟨ref.year, ref.month, 1⟩ ≤ toDayNumber ⟨ref.year, ref.month, 1⟩ :=
      Nat.mod_le _ _
    have hoff_lt : weekdayIndex ⟨ref.year, ref.month, 1⟩ < 7 := Nat.mod_lt _ (by omega)
    obtain ⟨-, -, hinv⟩ := prevDay_iterate hvfirst (weekdayIndex ⟨ref.year, ref.month, 1⟩) hoff_le
    simp only [buildMonthGrid, List.mem_map, List.mem_range]
    exact ⟨_, ⟨weekdayIndex ⟨ref.year, ref.month, 1⟩, by omega, rfl⟩, hinv⟩
  · intro c hc
    simp only [buildMonthGrid, List.mem_map, List.mem_range] at hc
    obtain ⟨i, hi, rfl⟩ := hc
    simp [Bool.and_eq_true, beq_iff_eq]

/-- C7: for every (valid) reference date, `buildWeekGrid` returns 7 days times
24 hourly slots (168 slots) covering the week containing the reference date:
there is a week start whose 7 consecutive days — with the reference date
sitting at its weekday index among them — are exactly the grid's day groups
in order, each labelled 00:00 through 23:00 in order. -/
theorem buildWeekGrid_spec (ref : Date) (h : ValidDate ref) :
    (buildWeekGrid ref).length = 168 ∧
    weekdayIndex ref < 7 ∧
    (∃ start : Date, nextDay^[weekdayIndex ref] start = ref ∧
      (buildWeekGrid ref).map (fun s => (s.date, s.hour)) =
        (List.range 7).flatMap fun i =>
          (List.range 24).map fun hr => (nextDay^[i] start, hr)) ∧
    (∀ hr, hr < 24 → ∃ s ∈ buildWeekGrid ref, s.date = ref ∧ s.hour = hr) := by
  have hoff_le : weekdayIndex ref ≤ toDayNumber ref := Nat.mod_le _ _
  have hoff_lt : weekdayIndex ref < 7 := Nat.mod_lt _ (by omega)
  obtain ⟨-, -, hinv⟩ := prevDay_iterate h (weekdayIndex ref) hoff_le
  refine ⟨?_, hoff_lt, ⟨prevDay^[weekdayIndex ref] ref, hinv, ?_⟩, ?_⟩
  · simp only [buildWeekGrid, List.length_flatMap, Function.comp_def, List.length_map,
      List.length_range]
    decide
  · simp [buildWeekGrid, List.map_flatMap, List.map_map, Function.comp_def]
  · intro hr hhr
    simp only [buildWeekGrid, List.mem_flatMap, List.mem_map, List.mem_range]
    exact ⟨_, ⟨weekdayIndex ref, hoff_lt, ⟨hr, hhr, rfl⟩⟩, hinv, rfl⟩

/-- Witness for C1 at October 2025. -/
theorem buildMonthGrid_spec_witness :
    ValidDate ⟨2025, 10, 15⟩ ∧
    ((buildMonthGrid ⟨2025, 10, 11⟩ ⟨2025, 10, 15⟩).length = 42 ∧
     (∃ c ∈ buildMonthGrid ⟨2025, 10, 11⟩ ⟨2025, 10, 15⟩, c.date = (⟨2025, 10, 1⟩ : Date)) ∧
     (∀ c ∈ buildMonthGrid ⟨2025, 10, 11⟩ ⟨2025, 10, 15⟩,
        c.isCurrentPeriod = true ↔ (c.date.year = 2025 ∧ c.date.month = 10))) :=
  ⟨by decide, buildMonthGrid_spec ⟨2025, 10, 11⟩ ⟨2025, 10, 15⟩ (by decide)⟩

/-- Witness for C7 at October 11, 2025. -/
theorem buildWeekGrid_spec_witness :
    ValidDate ⟨2025, 10, 11⟩ ∧
    ((buildWeekGrid ⟨2025, 10, 11⟩).length = 168 ∧
     weekdayIndex ⟨2025, 10, 11⟩ < 7 ∧
     (∃ start : Date, nextDay^[weekdayIndex ⟨2025, 10, 11⟩] start = ⟨2025, 10, 11⟩ ∧
       (buildWeekGrid ⟨2025, 10, 11⟩).map (fun s => (s.date, s.hour)) =
         (List.range 7).flatMap fun i =>
           (List.range 24).map fun hr => (nextDay^[i] start, hr)) ∧
     (∀ hr, hr < 24 →
       ∃ s ∈ buildWeekGrid ⟨2025, 10, 11⟩, s.date = ⟨2025, 10, 11⟩ ∧ s.hour = hr)) :=
  ⟨by decide, buildWeekGrid_spec ⟨2025, 10, 11⟩ (by decide)⟩


/-- C2: for every day `D` and event `E` of the input, `E` appears in
`indexByDay events D` iff `E.startDate < endOfDay D` and
`E.endDate > startOfDay D`; in particular an event whose `endDate` is exactly
midnight does not appear under the following day. -/
theorem indexByDay_spec (events : List CalendarEvent) (E : CalendarEvent) (D : Nat)
    (hE : E ∈ events) :
    (E ∈ indexByDay events D ↔ (E.startDate < endOfDay D ∧ E.endDate > startOfDay D)) ∧
    (E.endDate = startOfDay D → E ∉ indexByDay events D) := by
  have hmem : E ∈ indexByDay events D ↔
      (E.startDate < endOfDay D ∧ E.endDate > startOfDay D) := by
    simp [indexByDay, List.mem_mergeSort, List.mem_filter, occupiesDay, hE]
  refine ⟨hmem, fun hmid hin => ?_⟩
  have := (hmem.1 hin).2
  omega

/-- Witness for C2 at the first sample event on October 29, 2025. -/
theorem indexByDay_spec_witness :
    sampleEvent1 ∈ [sampleEvent1] ∧
    ((sampleEvent1 ∈ indexByDay [sampleEvent1] (toDayNumber ⟨2025, 10, 29⟩) ↔
      (sampleEvent1.startDate < endOfDay (toDayNumber ⟨2025, 10, 29⟩) ∧
       sampleEvent1.endDate > startOfDay (toDayNumber ⟨2025, 10, 29⟩))) ∧
     (sampleEvent1.endDate = startOfDay (toDayNumber ⟨2025, 10, 29⟩) →
      sampleEvent1 ∉ indexByDay [sampleEvent1] (toDayNumber ⟨2025, 10, 29⟩))) :=
  ⟨by decide, indexByDay_spec [sampleEvent1] sampleEvent1 (toDayNumber ⟨2025, 10, 29⟩) (by decide)⟩

/-- C6: for every day in month view the indexer exposes at most 3 events as
the preview (the first 3 indexed events) together with an overflow count equal
to the number of remaining events beyond the cap. -/
theorem previewForDay_spec (events : List CalendarEvent) (D : Nat) :
    (previewForDay events D).preview.length ≤ 3 ∧
    (previewForDay events D).preview = (indexByDay events D).take 3 ∧
    (previewForDay events D).moreCount =
      (indexByDay events D).length - (previewForDay events D).preview.length := by
  refine ⟨?_, rfl, ?_⟩
  · simp [previewForDay, monthPreviewCap]
  · simp only [previewForDay, List.length_take, monthPreviewCap]
    omega

/-- C8: the `today` transition changes only `referenceDate` (resetting it to
the current date) and leaves `viewMode` unchanged; `setView` changes only
`viewMode` and leaves `referenceDate` unchanged; all four transitions are
total functions on every state. -/
theorem navigation_frame_total (now : Date) (s : NavigationState) (m : ViewMode) :
    (navToday now s).viewMode = s.viewMode ∧ (navToday now s).referenceDate = now ∧
    (navSetView m s).referenceDate = s.referenceDate ∧ (navSetView m s).viewMode = m ∧
    (∃ s1, navNext s = s1) ∧ (∃ s2, navPrevious s = s2) ∧
    (∃ s3, navToday now s = s3) ∧ (∃ s4, navSetView m s = s4) :=
  ⟨rfl, rfl, rfl, rfl, ⟨_, rfl⟩, ⟨_, rfl⟩, ⟨_, rfl⟩, ⟨_, rfl⟩⟩


theorem validate_ne_nil {d : Draft}
    (h : titleBlank d.title = true ∨
      ∃ sd ed, d.startDate = some sd ∧ d.endDate = some ed ∧ ed ≤ sd) :
    validate d ≠ [] := by
  rcases h with ht | ⟨sd, ed, hs, he, hle⟩
  · simp [validate, ht]
  · simp only [validate, hs, he]
    rw [if_neg (by omega : ¬ sd < ed)]
    simp

theorem validate_title {d : Draft} (h : validate d = []) : titleBlank d.title = false :=
  by
  by_cases h0 : titleBlank d.title
  · exact absurd h (validate_ne_nil (Or.inl h0))
  · simpa using h0

theorem validate_dates {d : Draft} (h : validate d = []) :
    ∃ sd ed, d.startDate = some sd ∧ d.endDate = some ed ∧ sd < ed := by
  rcases hs : d.startDate with _ | sd <;> rcases he : d.endDate with _ | ed
  · unfold validate at h
    simp only [hs, he] at h
    simp at h
  · unfold validate at h
    simp only [hs, he] at h
    simp at h
  · unfold validate at h
    simp only [hs, he] at h
    simp at h
  · by_cases hlt : sd < ed
    · exact ⟨sd, ed, rfl, rfl, hlt⟩
    · unfold validate at h
      simp only [hs, he] at h
      rw [if_neg hlt] at h
      simp at h

theorem validate_color {d : Draft} (h : validate d = []) : d.color ∈ palette := by
  by_cases hc : d.color ∈ palette
  · exact hc
  · unfold validate at h
    rw [if_neg hc] at h
    simp at h

/-- C4: in Open mode, `submit` with a draft whose title is blank (empty after
trimming) or whose dates satisfy `endDate <= startDate` fails validation: the
form stays Open with the same draft, field errors are surfaced, and no
callback intent is emitted; on successful validation `submit` transitions to
Closed and emits exactly one intent — an add in create mode, an update with
the original's id in edit mode. -/
theorem submit_spec (newId : String) (s : FormState) (d : Draft)
    (hd : s.draft? = some d) :
    ((titleBlank d.title = true ∨
        ∃ sd ed, d.startDate = some sd ∧ d.endDate = some ed ∧ ed ≤ sd) →
      (submit newId s).1.isOpen = true ∧ (submit newId s).1.draft? = some d ∧
      (submit newId s).1.errors ≠ [] ∧ (submit newId s).2 = none) ∧
    (validate d = [] →
      (submit newId s).1 = .closed ∧
      ((∃ e, (submit newId s).2 = some (.add e)) ∨
        (∃ i u, (submit newId s).2 = some (.update i u))) ∧
      (∀ dc es, s = .openCreate dc es → ∃ e, (submit newId s).2 = some (.add e)) ∧
      (∀ o dc es, s = .openEdit o dc es →
        ∃ u, (submit newId s).2 = some (.update o.id u))) := by
  cases s with
  | closed => simp [FormState.draft?] at hd
  | openCreate dc es =>
    simp only [FormState.draft?, Option.some.injEq] at hd
    subst hd
    constructor
    · intro hbad
      have hne := validate_ne_nil hbad
      have hemp : (validate dc).isEmpty = false := by
        simpa [List.isEmpty_iff] using hne
      simp [submit, hemp, FormState.isOpen, FormState.draft?, FormState.errors, hne]
    · intro hv
      obtain ⟨sd, ed, hs, he, -⟩ := validate_dates hv
      have hemp : (validate dc).isEmpty = true := by simp [hv]
      have hred : submit newId (FormState.openCreate dc es) =
          (FormState.closed, some (CrudIntent.add
            { id := newId, title := dc.title, description := dc.description
              startDate := sd, endDate := ed, color := dc.color
              category := dc.category })) := by
        simp [submit, hemp, hs, he]
      refine ⟨?_, ?_, ?_, ?_⟩
      · rw [hred]
      · exact Or.inl ⟨_, by rw [hred]⟩
      · intro dc2 es2 heq
        exact ⟨_, by rw [hred]⟩
      · intro o dc2 es2 heq
        cases heq
  | openEdit o dc es =>
    simp only [FormState.draft?, Option.some.injEq] at hd
    subst hd
    constructor
    · intro hbad
      have hne := validate_ne_nil hbad
      have hemp : (validate dc).isEmpty = false := by
        simpa [List.isEmpty_iff] using hne
      simp [submit, hemp, FormState.isOpen, FormState.draft?, FormState.errors, hne]
    · intro hv
      have hemp : (validate dc).isEmpty = true := by simp [hv]
      have hred : submit newId (FormState.openEdit o dc es) =
          (FormState.closed, some (CrudIntent.update o.id (diffUpdates o dc))) := by
        simp [submit, hemp]
      refine ⟨?_, ?_, ?_, ?_⟩
      · rw [hred]
      · exact Or.inr ⟨_, _, by rw [hred]⟩
      · intro dc2 es2 heq
        cases heq
      · intro o2 dc2 es2 heq
        cases heq
        exact ⟨_, by rw [hred]⟩


/-- C5: for every valid existing event, `openForEdit` followed immediately by
`submit` with no field updates emits exactly `update(event.id, {})` with the
empty field update and leaves the form Closed. -/
theorem openForEdit_submit_roundtrip (newId : String) (e : CalendarEvent)
    (ht : titleBlank e.title = false) (hlt : e.startDate < e.endDate)
    (hc : e.color ∈ palette) :
    submit newId (openForEdit e) = (.closed, some (.update e.id EventUpdates.empty)) := by
  have hv : validate (draftOfEvent e) = [] := by
    simp [validate, draftOfEvent, ht, hlt, hc]
  have hemp : (validate (draftOfEvent e)).isEmpty = true := by simp [hv]
  have hdiff : diffUpdates e (draftOfEvent e) = EventUpdates.empty := by
    simp [diffUpdates, draftOfEvent, EventUpdates.empty]
  simp [openForEdit, submit, hemp, hdiff]

/-- Witness for C5 on the first sample event. -/
theorem openForEdit_submit_roundtrip_witness :
    (titleBlank sampleEvent1.title = false ∧
      sampleEvent1.startDate < sampleEvent1.endDate ∧
      sampleEvent1.color ∈ palette) ∧
    submit "fresh" (openForEdit sampleEvent1) =
      (.closed, some (.update sampleEvent1.id EventUpdates.empty)) :=
  ⟨by decide, openForEdit_submit_roundtrip "fresh" sampleEvent1 (by decide) (by decide) (by decide)⟩

/-- Witness for C4 on a blank-titled create draft. -/
theorem submit_spec_witness :
    ((FormState.openCreate blankDraft []).draft? = some blankDraft) ∧
    (((titleBlank blankDraft.title = true ∨
        ∃ sd ed, blankDraft.startDate = some sd ∧ blankDraft.endDate = some ed ∧ ed ≤ sd) →
      (submit "fresh" (FormState.openCreate blankDraft [])).1.isOpen = true ∧
      (submit "fresh" (FormState.openCreate blankDraft [])).1.draft? = some blankDraft ∧
      (submit "fresh" (FormState.openCreate blankDraft [])).1.errors ≠ [] ∧
      (submit "fresh" (FormState.openCreate blankDraft [])).2 = none) ∧
     (validate blankDraft = [] →
      (submit "fresh" (FormState.openCreate blankDraft [])).1 = .closed ∧
      ((∃ e, (submit "fresh" (FormState.openCreate blankDraft [])).2 = some (.add e)) ∨
        (∃ i u, (submit "fresh" (FormState.openCreate blankDraft [])).2 =
          some (.update i u))) ∧
      (∀ dc es, FormState.openCreate blankDraft [] = .openCreate dc es →
        ∃ e, (submit "fresh" (FormState.openCreate blankDraft [])).2 = some (.add e)) ∧
      (∀ o dc es, FormState.openCreate blankDraft [] = .openEdit o dc es →
        ∃ u, (submit "fresh" (FormState.openCreate blankDraft [])).2 =
          some (.update o.id u)))) :=
  ⟨rfl, submit_spec "fresh" (FormState.openCreate blankDraft []) blankDraft rfl⟩

/-- C9: `generateManyEvents` returns exactly 25 events with pairwise distinct
ids `evt-1` ... `evt-25`, each spanning exactly 90 minutes from hour
`9 + i % 8` on day `i` of October 2025 to hour `10 + i % 8` minute 30, so
every fixture event satisfies `startDate < endDate`. -/
theorem generateManyEvents_spec :
    generateManyEvents.length = 25 ∧
    (generateManyEvents.map (fun e => e.id)).Nodup ∧
    (∀ e ∈ generateManyEvents, e.startDate < e.endDate ∧ e.endDate - e.startDate = 90) ∧
    (∀ k, k < 25 →
      (generateManyEvents[k]?.map (fun e => (e.startDate, e.endDate))) =
        some (jsDateMinutes 2025 9 (k + 1) (9 + (k + 1) % 8) 0,
          jsDateMinutes 2025 9 (k + 1) (10 + (k + 1) % 8) 30)) := by
  refine ⟨by decide, by decide, by decide, by decide⟩

/-- C10: the `colors` table has exactly 6 entries and `categories` exactly 5,
the round-robin indices `i % length` are in bounds for every `i` from 1 to 25,
and every generated event's color is one of the 6 palette values and its
category one of the 5 listed categories. -/
theorem generateManyEvents_palette :
    palette.length = 6 ∧ storyCategories.length = 5 ∧
    (∀ i, i < 26 → 1 ≤ i →
      i % palette.length < palette.length ∧
      i % storyCategories.length < storyCategories.length) ∧
    (∀ e ∈ generateManyEvents, e.color ∈ palette ∧
      ∃ c ∈ storyCategories, e.category = some c) := by
  refine ⟨rfl, rfl, by decide, by decide⟩


theorem normalizeEvent_pos (e : CalendarEvent) :
    (normalizeEvent e).startDate < (normalizeEvent e).endDate := by
  unfold normalizeEvent
  split
  · dsimp only
    omega
  · omega

theorem pickLane_some : ∀ (lanes : List Nat) (s j : Nat),
    pickLane lanes s = some j → j < lanes.length ∧ lanes.getD j 0 ≤ s := by
  intro lanes
  induction lanes with
  | nil => intro s j h; simp [pickLane] at h
  | cons t rest ih =>
    intro s j h
    by_cases ht : t ≤ s
    · simp [pickLane, ht] at h
      subst h
      exact ⟨by simp, ht⟩
    · simp only [pickLane, if_neg ht, Option.map_eq_some'] at h
      obtain ⟨j', hj', rfl⟩ := h
      obtain ⟨h1, h2⟩ := ih s j' hj'
      exact ⟨by simpa using h1, h2⟩

theorem pickLane_none : ∀ (lanes : List Nat) (s : Nat),
    pickLane lanes s = none → ∀ i, i < lanes.length → s < lanes.getD i 0 := by
  intro lanes
  induction lanes with
  | nil => intro s _ i hi; simp at hi
  | cons t rest ih =>
    intro s h i hi
    by_cases ht : t ≤ s
    · simp [pickLane, ht] at h
    · simp only [pickLane, if_neg ht, Option.map_eq_none'] at h
      cases i with
      | zero => simpa using Nat.lt_of_not_le ht
      | succ i' => exact ih s h i' (by simpa using hi)

theorem laneOrder_total : ∀ a b, (laneOrder a b || laneOrder b a) = true := by
  intro a b
  simp only [laneOrder, Bool.or_eq_true, Bool.and_eq_true, decide_eq_true_iff, beq_iff_eq]
  rcases Nat.lt_trichotomy a.startDate b.startDate with h | h | h
  · tauto
  · rcases Nat.lt_trichotomy a.endDate b.endDate with h2 | h2 | h2
    · tauto
    · rcases le_total a.id b.id with h3 | h3 <;> tauto
    · tauto
  · tauto

theorem laneOrder_trans : ∀ a b c, laneOrder a b = true → laneOrder b c = true →
    laneOrder a c = true := by
  intro a b c hab hbc
  simp only [laneOrder, Bool.or_eq_true, Bool.and_eq_true, decide_eq_true_iff,
    beq_iff_eq] at *
  rcases hab with h | ⟨h1, h | ⟨h2, h3⟩⟩ <;> rcases hbc with g | ⟨g1, g | ⟨g2, g3⟩⟩ <;>
    first
      | (left; omega)
      | (right; refine ⟨by omega, ?_⟩; first
          | (left; omega)
          | (right; exact ⟨by omega, le_trans h3 g3⟩))

theorem laneOrder_start_le {a b : CalendarEvent} (h : laneOrder a b = true) :
    a.startDate ≤ b.startDate := by
  simp only [laneOrder, Bool.or_eq_true, Bool.and_eq_true, decide_eq_true_iff,
    beq_iff_eq] at h
  rcases h with h | ⟨h1, -⟩ <;> omega


theorem getD_set_self (l : List Nat) (j v : Nat) (h : j < l.length) :
    (l.set j v).getD j 0 = v := by
  rw [List.getD_eq_getElem?_getD, List.getElem?_set_self (by simpa using h)]
  rfl

theorem getD_set_ne (l : List Nat) (i j v : Nat) (h : i ≠ j) :
    (l.set i v).getD j 0 = l.getD j 0 := by
  rw [List.getD_eq_getElem?_getD, List.getElem?_set_ne h, ← List.getD_eq_getElem?_getD]

theorem getD_append_self (l : List Nat) (v : Nat) :
    (l ++ [v]).getD l.length 0 = v := by
  rw [List.getD_append_right _ _ _ _ (le_refl _)]
  simp


theorem assignLanes_spec (rest : List CalendarEvent) :
    ∀ (lanes : List Nat) (placed : List (CalendarEvent × Nat)),
    LaneInv placed lanes →
    (∀ p ∈ placed, ∀ e ∈ rest, p.1.startDate ≤ e.startDate) →
    List.Pairwise (fun a b => a.startDate ≤ b.startDate) rest →
    (∀ e ∈ rest, e.startDate < e.endDate) →
    (assignLanes rest lanes).1.map Prod.fst = rest ∧
    LaneInv (placed ++ (assignLanes rest lanes).1) (assignLanes rest lanes).2 ∧
    lanes.length ≤ (assignLanes rest lanes).2.length ∧
    ((assignLanes rest lanes).2.length = lanes.length ∨
      ∃ t, (assignLanes rest lanes).2.length ≤
        (placed ++ (assignLanes rest lanes).1).countP
          (fun p => decide (p.1.startDate ≤ t) && decide (t < p.1.endDate))) := by
  induction rest with
  | nil =>
    intro lanes placed hinv hord hsorted hpos
    refine ⟨rfl, ?_, le_refl _, Or.inl rfl⟩
    show LaneInv (placed ++ []) lanes
    rw [List.append_nil]
    exact hinv
  | cons e rest' ih =>
    intro lanes placed hinv hord hsorted hpos
    obtain ⟨hI0, hI1, hI2, hI4, hI5⟩ := hinv
    have hpos_e : e.startDate < e.endDate := hpos e (List.mem_cons_self _ _)
    have hhead : ∀ e' ∈ rest', e.startDate ≤ e'.startDate := (List.pairwise_cons.1 hsorted).1
    have hsorted' := (List.pairwise_cons.1 hsorted).2
    have hpos' : ∀ e' ∈ rest', e'.startDate < e'.endDate :=
      fun e' he' => hpos e' (List.mem_cons_of_mem _ he')
    cases hpick : pickLane lanes e.startDate with
    | some j =>
      obtain ⟨hjlt, hjfree⟩ := pickLane_some lanes e.startDate j hpick
      have hinv' : LaneInv (placed ++ [(e, j)]) (lanes.set j e.endDate) := by
        refine ⟨?_, ?_, ?_, ?_, ?_⟩
        · intro p hp
          rcases List.mem_append.1 hp with h | h
          · rw [List.length_set]
            exact hI0 p h
          · rw [List.mem_singleton.1 h, List.length_set]
            exact hjlt
        · intro p hp
          rcases List.mem_append.1 hp with h | h
          · by_cases hpj : p.2 = j
            · have h1 := hI1 p h
              rw [hpj] at h1 ⊢
              rw [getD_set_self _ _ _ hjlt]
              omega
            · rw [getD_set_ne _ _ _ _ (fun hh => hpj hh.symm)]
              exact hI1 p h
          · rw [List.mem_singleton.1 h]
            rw [getD_set_self _ _ _ hjlt]
        · intro j' hj'
          rw [List.length_set] at hj'
          by_cases hjj : j' = j
          · subst hjj
            exact ⟨(e, j'), List.mem_append_right _ (List.mem_singleton_self _), rfl,
              by rw [getD_set_self _ _ _ hjlt]⟩
          · obtain ⟨p, hp, hpj, hpd⟩ := hI2 j' hj'
            exact ⟨p, List.mem_append_left _ hp, hpj,
              by rw [getD_set_ne _ _ _ _ (fun hh => hjj hh.symm)]; exact hpd⟩
        · intro p hp
          rcases List.mem_append.1 hp with h | h
          · exact hI4 p h
          · rw [List.mem_singleton.1 h]
            exact hpos_e
        · rw [List.pairwise_append]
          refine ⟨hI5, List.pairwise_singleton _ _, ?_⟩
          intro p hp q hq
          rw [List.mem_singleton.1 hq]
          intro hp2
          have h1 := hI1 p hp
          dsimp only at hp2 ⊢
          rw [hp2] at h1
          omega
      have hord' : ∀ p ∈ placed ++ [(e, j)], ∀ e' ∈ rest',
          p.1.startDate ≤ e'.startDate := by
        intro p hp e' he'
        rcases List.mem_append.1 hp with h | h
        · exact hord p h e' (List.mem_cons_of_mem _ he')
        · rw [List.mem_singleton.1 h]
          exact hhead e' he'
      obtain ⟨ihmap, ihinv, ihlen, ihmax⟩ :=
        ih (lanes.set j e.endDate) (placed ++ [(e, j)]) hinv' hord' hsorted' hpos'
      have hred : assignLanes (e :: rest') lanes =
          ((e, j) :: (assignLanes rest' (lanes.set j e.endDate)).1,
            (assignLanes rest' (lanes.set j e.endDate)).2) := by
        simp only [assignLanes, hpick]
      have hassoc : placed ++ (e, j) :: (assignLanes rest' (lanes.set j e.endDate)).1 =
          (placed ++ [(e, j)]) ++ (assignLanes rest' (lanes.set j e.endDate)).1 := by
        simp
      rw [hred]
      refine ⟨by simp [ihmap], ?_, ?_, ?_⟩
      · dsimp only
        rw [hassoc]
        exact ihinv
      · rw [← List.length_set lanes j e.endDate]
        exact ihlen
      · rcases ihmax with hl | ⟨t, ht⟩
        · left
          rw [hl, List.length_set]
        · right
          refine ⟨t, ?_⟩
          dsimp only
          rw [hassoc]
          exact ht
    | none =>
      have hall := pickLane_none lanes e.startDate hpick
      have hinv' : LaneInv (placed ++ [(e, lanes.length)]) (lanes ++ [e.endDate]) := by
        refine ⟨?_, ?_, ?_, ?_, ?_⟩
        · intro p hp
          rw [List.length_append]
          rcases List.mem_append.1 hp with h | h
          · have := hI0 p h
            omega
          · rw [List.mem_singleton.1 h]
            simp
        · intro p hp
          rcases List.mem_append.1 hp with h | h
          · rw [List.getD_append _ _ _ _ (hI0 p h)]
            exact hI1 p h
          · rw [List.mem_singleton.1 h]
            rw [getD_append_self]
        · intro j' hj'
          rw [List.length_append, List.length_singleton] at hj'
          by_cases hjj : j' = lanes.length
          · subst hjj
            exact ⟨(e, lanes.length), List.mem_append_right _ (List.mem_singleton_self _),
              rfl, by rw [getD_append_self]⟩
          · have hj'lt : j' < lanes.length := by omega
            obtain ⟨p, hp, hpj, hpd⟩ := hI2 j' hj'lt
            exact ⟨p, List.mem_append_left _ hp, hpj,
              by rw [List.getD_append _ _ _ _ hj'lt]; exact hpd⟩
        · intro p hp
          rcases List.mem_append.1 hp with h | h
          · exact hI4 p h
          · rw [List.mem_singleton.1 h]
            exact hpos_e
        · rw [List.pairwise_append]
          refine ⟨hI5, List.pairwise_singleton _ _, ?_⟩
          intro p hp q hq
          rw [List.mem_singleton.1 hq]
          intro hp2
          have := hI0 p hp
          exact absurd hp2 (by omega)
      have hord' : ∀ p ∈ placed ++ [(e, lanes.length)], ∀ e' ∈ rest',
          p.1.startDate ≤ e'.startDate := by
        intro p hp e' he'
        rcases List.mem_append.1 hp with h | h
        · exact hord p h e' (List.mem_cons_of_mem _ he')
        · rw [List.mem_singleton.1 h]
          exact hhead e' he'
      obtain ⟨ihmap, ihinv, ihlen, ihmax⟩ :=
        ih (lanes ++ [e.endDate]) (placed ++ [(e, lanes.length)]) hinv' hord' hsorted' hpos'
      have hred : assignLanes (e :: rest') lanes =
          ((e, lanes.length) :: (assignLanes rest' (lanes ++ [e.endDate])).1,
            (assignLanes rest' (lanes ++ [e.endDate])).2) := by
        simp only [assignLanes, hpick]
      have hassoc : placed ++ (e, lanes.length) :: (assignLanes rest' (lanes ++ [e.endDate])).1 =
          (placed ++ [(e, lanes.length)]) ++ (assignLanes rest' (lanes ++ [e.endDate])).1 := by
        simp
      have hlen' : (lanes ++ [e.endDate]).length = lanes.length + 1 := by simp
      rw [hred]
      refine ⟨by simp [ihmap], ?_, ?_, ?_⟩
      · dsimp only
        rw [hassoc]
        exact ihinv
      · dsimp only
        rw [hlen'] at ihlen
        omega
      · rcases ihmax with hl | ⟨t, ht⟩
        · right
          refine ⟨e.startDate, ?_⟩
          dsimp only
          rw [hl, hlen', hassoc]
          have hact : (fun p : CalendarEvent × Nat =>
              decide (p.1.startDate ≤ e.startDate) &&
                decide (e.startDate < p.1.endDate)) (e, lanes.length) = true := by
            simp [hpos_e]
          have hcnt1 : lanes.length ≤ placed.countP
              (fun p => decide (p.1.startDate ≤ e.startDate) &&
                decide (e.startDate < p.1.endDate)) := by
            have hmemrange : Finset.range lanes.length ⊆
                ((placed.filter (fun p => decide (p.1.startDate ≤ e.startDate) &&
                  decide (e.startDate < p.1.endDate))).map Prod.snd).toFinset := by
              intro j hj
              rw [Finset.mem_range] at hj
              obtain ⟨p, hp, hpj, hpd⟩ := hI2 j hj
              have h1 : p.1.startDate ≤ e.startDate :=
                hord p hp e (List.mem_cons_self _ _)
              have h2 : e.startDate < p.1.endDate := by
                have := hall j hj
                omega
              rw [List.mem_toFinset, List.mem_map]
              exact ⟨p, List.mem_filter.2 ⟨hp, by simp [h1, h2]⟩, hpj⟩
            calc lanes.length = (Finset.range lanes.length).card := (Finset.card_range _).symm
              _ ≤ _ := Finset.card_le_card hmemrange
              _ ≤ _ := List.toFinset_card_le _
              _ = (placed.filter _).length := List.length_map _ _
              _ = placed.countP _ := (List.countP_eq_length_filter _ _).symm
          have hcnt2 : (placed ++ [(e, lanes.length)]).countP
              (fun p => decide (p.1.startDate ≤ e.startDate) &&
                decide (e.startDate < p.1.endDate)) =
              placed.countP (fun p => decide (p.1.startDate ≤ e.startDate) &&
                decide (e.startDate < p.1.endDate)) + 1 := by
            rw [List.countP_append]
            simp [List.countP_cons, hpos_e]
          have hsub : ((placed ++ [(e, lanes.length)]).countP
              (fun p => decide (p.1.startDate ≤ e.startDate) &&
                decide (e.startDate < p.1.endDate))) ≤
              (((placed ++ [(e, lanes.length)]) ++
                (assignLanes rest' (lanes ++ [e.endDate])).1).countP
                (fun p => decide (p.1.startDate ≤ e.startDate) &&
                  decide (e.startDate < p.1.endDate))) :=
            List.Sublist.countP_le _ (List.sublist_append_left _ _)
          omega
        · right
          refine ⟨t, ?_⟩
          dsimp only
          rw [hassoc]
          exact ht


theorem assignLanes_final (sorted : List CalendarEvent)
    (hsorted : List.Pairwise (fun a b => a.startDate ≤ b.startDate) sorted)
    (hpos : ∀ e ∈ sorted, e.startDate < e.endDate) :
    (assignLanes sorted []).1.map Prod.fst = sorted ∧
    List.Pairwise (fun p q : CalendarEvent × Nat =>
      p.2 = q.2 → p.1.endDate ≤ q.1.startDate) (assignLanes sorted []).1 ∧
    (∀ p ∈ (assignLanes sorted []).1, p.2 < (assignLanes sorted []).2.length) ∧
    (∀ t, List.countP
        (fun p : CalendarEvent × Nat =>
          decide (p.1.startDate ≤ t) && decide (t < p.1.endDate))
        (assignLanes sorted []).1 ≤
      (assignLanes sorted []).2.length) ∧
    ((assignLanes sorted []).2.length = 0 ∨
      ∃ t, (assignLanes sorted []).2.length ≤ List.countP
        (fun p : CalendarEvent × Nat =>
          decide (p.1.startDate ≤ t) && decide (t < p.1.endDate))
        (assignLanes sorted []).1) := by
  have hinv0 : LaneInv [] [] := by
    refine ⟨?_, ?_, ?_, ?_, ?_⟩ <;> simp
  obtain ⟨hmap, hinv, -, hmax⟩ :=
    assignLanes_spec sorted [] [] hinv0 (by simp) hsorted hpos
  rw [List.nil_append] at hinv
  obtain ⟨hF0, -, -, -, hF5⟩ := hinv
  have hle : ∀ t, List.countP
      (fun p : CalendarEvent × Nat =>
        decide (p.1.startDate ≤ t) && decide (t < p.1.endDate))
      (assignLanes sorted []).1 ≤ (assignLanes sorted []).2.length := by
    intro t
    set act := fun p : CalendarEvent × Nat =>
      decide (p.1.startDate ≤ t) && decide (t < p.1.endDate) with hact
    set A := (assignLanes sorted []).1 with hA
    have hfilter_pair : List.Pairwise (fun p q : CalendarEvent × Nat => p.2 ≠ q.2)
        (A.filter act) := by
      refine (hF5.filter act).imp_of_mem ?_
      intro p q hpmem hqmem hR hpq
      have hpa := (List.mem_filter.1 hpmem).2
      have hqa := (List.mem_filter.1 hqmem).2
      rw [hact] at hpa hqa
      simp only [Bool.and_eq_true, decide_eq_true_iff] at hpa hqa
      have := hR hpq
      omega
    have hnodup : ((A.filter act).map Prod.snd).Nodup :=
      hfilter_pair.map _ (fun a b h => h)
    have hsubset : ((A.filter act).map Prod.snd).toFinset ⊆
        Finset.range (assignLanes sorted []).2.length := by
      intro x hx
      rw [List.mem_toFinset] at hx
      obtain ⟨p, hp, rfl⟩ := List.mem_map.1 hx
      rw [Finset.mem_range]
      exact hF0 p (List.mem_of_mem_filter hp)
    have h1 : List.countP act A = (A.filter act).length :=
      List.countP_eq_length_filter _ _
    have h2 : ((A.filter act).map Prod.snd).length = (A.filter act).length :=
      List.length_map _ _
    have h3 : ((A.filter act).map Prod.snd).toFinset.card =
        ((A.filter act).map Prod.snd).length :=
      List.toFinset_card_of_nodup hnodup
    have h4 := Finset.card_le_card hsubset
    rw [Finset.card_range, h3] at h4
    omega
  refine ⟨hmap, hF5, hF0, hle, ?_⟩
  rcases hmax with h0 | ⟨t, ht⟩
  · left
    simpa using h0
  · right
    rw [List.nil_append] at ht
    exact ⟨t, ht⟩


/-- C3: the lane engine never assigns two events with overlapping (half-open)
intervals the same lane, events with identical start and end get distinct
lanes, and the `laneCount` broadcast to every event of the day equals the
maximum number of events simultaneously active at any instant (measured on
the normalized events). -/
theorem layoutDay_spec (events : List CalendarEvent) :
    List.Pairwise (fun p q : PositionedEvent =>
      (overlaps p.event q.event → p.laneIndex ≠ q.laneIndex) ∧
      ((p.event.startDate = q.event.startDate ∧ p.event.endDate = q.event.endDate) →
        p.laneIndex ≠ q.laneIndex)) (layoutDay events) ∧
    (∀ p ∈ layoutDay events, p.laneCount = laneCountOf events) ∧
    (∀ t, activeAt (events.map normalizeEvent) t ≤ laneCountOf events) ∧
    (∃ t, activeAt (events.map normalizeEvent) t = laneCountOf events) := by
  have hperm : List.Perm ((events.map normalizeEvent).mergeSort laneOrder)
      (events.map normalizeEvent) :=
    List.mergeSort_perm _ _
  have hsorted : List.Pairwise (fun a b => a.startDate ≤ b.startDate)
      ((events.map normalizeEvent).mergeSort laneOrder) :=
    (List.sorted_mergeSort laneOrder_trans laneOrder_total _).imp
      (fun h => laneOrder_start_le h)
  have hpos : ∀ e ∈ (events.map normalizeEvent).mergeSort laneOrder,
      e.startDate < e.endDate := by
    intro e he
    rw [List.mem_mergeSort] at he
    obtain ⟨e0, -, rfl⟩ := List.mem_map.1 he
    exact normalizeEvent_pos e0
  obtain ⟨hmap, hF5, hF0, hle, hmax⟩ :=
    assignLanes_final ((events.map normalizeEvent).mergeSort laneOrder) hsorted hpos
  have hAmem : ∀ p ∈ (assignLanes ((events.map normalizeEvent).mergeSort laneOrder) []).1,
      p.1.startDate < p.1.endDate := by
    intro p hp
    apply hpos
    rw [← hmap]
    exact List.mem_map_of_mem _ hp
  have hcnt : ∀ t, activeAt (events.map normalizeEvent) t = List.countP
      (fun p : CalendarEvent × Nat =>
        decide (p.1.startDate ≤ t) && decide (t < p.1.endDate))
      (assignLanes ((events.map normalizeEvent).mergeSort laneOrder) []).1 := by
    intro t
    unfold activeAt
    rw [← List.Perm.countP_eq _ hperm]
    conv_lhs => rw [← hmap]
    rw [List.countP_map]
    rfl
  have hlayout : layoutDay events =
      (assignLanes ((events.map normalizeEvent).mergeSort laneOrder) []).1.map
        (fun p => { event := p.1, laneIndex := p.2
                    laneCount := (assignLanes
                      ((events.map normalizeEvent).mergeSort laneOrder) []).2.length }) :=
    rfl
  have hcountOf : laneCountOf events =
      (assignLanes ((events.map normalizeEvent).mergeSort laneOrder) []).2.length := rfl
  refine ⟨?_, ?_, ?_, ?_⟩
  · rw [hlayout]
    have hpair : List.Pairwise (fun p q : CalendarEvent × Nat =>
        (overlaps p.1 q.1 → p.2 ≠ q.2) ∧
        ((p.1.startDate = q.1.startDate ∧ p.1.endDate = q.1.endDate) → p.2 ≠ q.2))
        (assignLanes ((events.map normalizeEvent).mergeSort laneOrder) []).1 := by
      refine hF5.imp_of_mem ?_
      intro p q hpmem hqmem hR
      constructor
      · intro hov heq
        obtain ⟨o1, o2⟩ := hov
        have h2 := hR heq
        omega
      · intro hse heq
        have h2 := hR heq
        have h3 := hAmem p hpmem
        obtain ⟨hs, he⟩ := hse
        omega
    exact hpair.map _ (fun a b h => h)
  · rw [hlayout, hcountOf]
    intro p hp
    obtain ⟨q, hq, rfl⟩ := List.mem_map.1 hp
    rfl
  · intro t
    rw [hcnt t, hcountOf]
    exact hle t
  · rcases hmax with h0 | ⟨t, ht⟩
    · refine ⟨0, ?_⟩
      have := hle 0
      rw [hcnt 0, hcountOf]
      omega
    · refine ⟨t, ?_⟩
      have h1 := hle t
      rw [hcnt t, hcountOf]
      omega

end CalendarView
